import Mathlib

/-!
Verification of the page-composition core of the passport-sheet service
(src/app.py).  The `process` request handler prepares one bordered tile
from the uploaded photo and then places `copies` copies of it on a fixed
A4 canvas with a row-major flow layout (wrap on horizontal overflow, hard
stop on vertical overflow).  The definitions below are a shallow embedding
of that code: the layout constants of lines 42-50, the placement loop of
lines 145-157, the transparency flattening of lines 79-85/123-129, the
resize/border step of lines 131-133, and the error short-circuiting of
lines 33-35 and 63-73.
-/

/-- The layout settings of src/app.py lines 42-49 (field names follow the
local variables of `process`).  The spec's LayoutParameters names map as:
tileWidth = passport_width, tileHeight = passport_height,
borderWidth = border, verticalSpacing = spacing, marginX = margin_x,
marginY = margin_y, horizontalGap = horizontal_gap,
pageWidth = a4_w, pageHeight = a4_h. -/
structure Layout where
  passport_width : ℕ
  passport_height : ℕ
  border : ℕ
  spacing : ℕ
  margin_x : ℕ
  margin_y : ℕ
  horizontal_gap : ℕ
  a4_w : ℕ
  a4_h : ℕ
deriving DecidableEq

/-- Tile footprint width, line 139: `paste_w = passport_width + 2 * border`. -/
def Layout.paste_w (L : Layout) : ℕ := L.passport_width + 2 * L.border

/-- Tile footprint height, line 140: `paste_h = passport_height + 2 * border`. -/
def Layout.paste_h (L : Layout) : ℕ := L.passport_height + 2 * L.border

/-- The concrete constants assigned in lines 42-49. -/
def defaultLayout : Layout :=
  { passport_width := 384
    passport_height := 472
    border := 2
    spacing := 25
    margin_x := 10
    margin_y := 15
    horizontal_gap := 20
    a4_w := 2480
    a4_h := 3508 }

/-- The placement loop of lines 145-157, one constructor step per loop
iteration.  Each iteration first runs the wrap check
(`if x + paste_w > a4_w: x = margin_x; y += paste_h + spacing`), then the
overflow check on the possibly-updated cursor
(`if y + paste_h > a4_h: break`), and otherwise pastes at the cursor and
advances `x += paste_w + horizontal_gap`.  The two outer branches below
are the wrap/no-wrap cases with the cursor update substituted in. -/
def placeLoop (L : Layout) : ℕ → ℕ → ℕ → List (ℕ × ℕ)
  | 0, _, _ => []
  | fuel + 1, x, y =>
    if x + L.paste_w > L.a4_w then
      if y + L.paste_h + L.spacing + L.paste_h > L.a4_h then []
      else
        (L.margin_x, y + L.paste_h + L.spacing) ::
          placeLoop L fuel (L.margin_x + L.paste_w + L.horizontal_gap)
            (y + L.paste_h + L.spacing)
    else
      if y + L.paste_h > L.a4_h then []
      else (x, y) :: placeLoop L fuel (x + L.paste_w + L.horizontal_gap) y

/-- The list of `a4.paste` coordinates produced by lines 136-157: the loop
runs `range(copies)` iterations (so a negative `copies` runs zero, as with
Python's `range`) starting from the cursor `(margin_x, margin_y)`. -/
def placements (L : Layout) (copies : ℤ) : List (ℕ × ℕ) :=
  placeLoop L copies.toNat L.margin_x L.margin_y

/-- The `placed` counter of lines 141/157/159: one increment per paste. -/
def placedCount (L : Layout) (copies : ℤ) : ℕ :=
  (placements L copies).length

/-- Largest column index reachable in one row: positions in a row are
`margin_x + k * (paste_w + horizontal_gap)` and the wrap check admits
exactly `k ≤ colMax` when the parameters fit and the step is positive. -/
def colMax (L : Layout) : ℕ :=
  (L.a4_w - L.margin_x - L.paste_w) / (L.paste_w + L.horizontal_gap)

/-- Largest row index reachable on the page: rows start at
`margin_y + r * (paste_h + spacing)` and the overflow check admits exactly
`r ≤ rowMax` when the parameters fit and the step is positive. -/
def rowMax (L : Layout) : ℕ :=
  (L.a4_h - L.margin_y - L.paste_h) / (L.paste_h + L.spacing)

/-- Maximum number of footprints the flow layout can place on one page
(assuming one tile fits at all).  When both cursor steps are positive this
is (columns per row) × (rows per page); when a step is zero the cursor
never leaves the fitting region in that direction, so arbitrarily many
copies can be placed and the maximum is `⊤`. -/
def capacity (L : Layout) : ℕ∞ :=
  if L.paste_w + L.horizontal_gap = 0 ∨ L.paste_h + L.spacing = 0 then ⊤
  else ((colMax L + 1) * (rowMax L + 1) : ℕ)

/-- Row-major strict order on placement coordinates `(x, y)`: strictly
lower row, or same row and strictly smaller x. -/
def rowMajorLt (p q : ℕ × ℕ) : Prop :=
  p.2 < q.2 ∨ (p.2 = q.2 ∧ p.1 < q.1)

instance : DecidableRel rowMajorLt := fun p q =>
  inferInstanceAs (Decidable (p.2 < q.2 ∨ (p.2 = q.2 ∧ p.1 < q.1)))

/-- Two footprint rectangles (closed-open boxes of size
`paste_w × paste_h`) at coordinates `p` and `q` share an interior point. -/
def tilesOverlap (L : Layout) (p q : ℕ × ℕ) : Prop :=
  p.1 < q.1 + L.paste_w ∧ q.1 < p.1 + L.paste_w ∧
    p.2 < q.2 + L.paste_h ∧ q.2 < p.2 + L.paste_h

instance (L : Layout) : DecidableRel (tilesOverlap L) := fun p q =>
  inferInstanceAs (Decidable (p.1 < q.1 + L.paste_w ∧ q.1 < p.1 + L.paste_w ∧
    p.2 < q.2 + L.paste_h ∧ q.2 < p.2 + L.paste_h))

/-- A width-oversized configuration: the footprint (200 px wide) does not
fit between `margin_x = 10` and the right page edge `a4_w = 100`, while
the page is tall.  Used to exercise the wrap branch of line 146. -/
def cLayoutWide : Layout :=
  { passport_width := 196
    passport_height := 472
    border := 2
    spacing := 25
    margin_x := 10
    margin_y := 15
    horizontal_gap := 20
    a4_w := 100
    a4_h := 3508 }

/-- A height-oversized configuration: `margin_y + paste_h = 491 > a4_h`. -/
def cLayoutTall : Layout :=
  { passport_width := 384
    passport_height := 472
    border := 2
    spacing := 25
    margin_x := 10
    margin_y := 15
    horizontal_gap := 20
    a4_w := 2480
    a4_h := 100 }

/-- A degenerate configuration with zero footprint width and zero
horizontal gap: the cursor never advances horizontally. -/
def cLayoutZeroStep : Layout :=
  { passport_width := 0
    passport_height := 472
    border := 0
    spacing := 25
    margin_x := 10
    margin_y := 15
    horizontal_gap := 0
    a4_w := 100
    a4_h := 3508 }

/-- C5: with the default layout and `requestedCopies = 6`, exactly six
tiles are placed, in one row, at x = 10, 418, 826, 1234, 1642, 2050 and
y = 15. -/
theorem placements_default_six :
    placements defaultLayout 6 =
        [(10, 15), (418, 15), (826, 15), (1234, 15), (1642, 15), (2050, 15)] ∧
      placedCount defaultLayout 6 = 6 := by
  constructor <;> rfl

/-- C10: negative `copies` runs zero loop iterations (Python `range` of a
negative bound is empty): no placements, placed count 0, identical to
`copies = 0`, and no error (the embedding is total). -/
theorem placements_neg_copies (L : Layout) (copies : ℤ) (h : copies < 0) :
    placements L copies = [] ∧ placements L copies = placements L 0 ∧
      placedCount L copies = 0 := by
  have h0 : copies.toNat = 0 := Int.toNat_of_nonpos h.le
  refine ⟨?_, ?_, ?_⟩ <;>
    simp [placements, placedCount, h0, placeLoop]

/-- Witness for C10 at `copies = -3` on the default layout. -/
theorem placements_neg_copies_witness :
    (-3 : ℤ) < 0 ∧
      (placements defaultLayout (-3) = [] ∧
        placements defaultLayout (-3) = placements defaultLayout 0 ∧
        placedCount defaultLayout (-3) = 0) :=
  ⟨by decide, placements_neg_copies defaultLayout (-3) (by decide)⟩

/-- C2 counterexample: on `cLayoutWide` one copy is placed at `(10, 516)`
(the wrap check of line 146 fires, moves the cursor down a row, and the
tile is then pasted at `x = margin_x` even though the footprint sticks out
past the right page edge), so a placed tile's bounding box exceeds the
page bounds. -/
theorem placements_inBounds_cex :
    placements cLayoutWide 1 = [(10, 516)] ∧
      cLayoutWide.a4_w < 10 + cLayoutWide.paste_w := by
  constructor <;> decide

/-- C2 amended: provided the footprint fits horizontally next to the left
margin (`margin_x + paste_w ≤ a4_w`), every placed tile's bounding box
lies fully inside the page: `x + paste_w ≤ a4_w` and `y + paste_h ≤ a4_h`
(the vertical part needs no hypothesis, being guarded by line 150). -/
theorem placements_inBounds (L : Layout) (copies : ℤ)
    (hw : L.margin_x + L.paste_w ≤ L.a4_w) :
    ∀ p ∈ placements L copies, p.1 + L.paste_w ≤ L.a4_w ∧ p.2 + L.paste_h ≤ L.a4_h := by
  have main : ∀ fuel x y, ∀ p ∈ placeLoop L fuel x y,
      p.1 + L.paste_w ≤ L.a4_w ∧ p.2 + L.paste_h ≤ L.a4_h := by
    intro fuel
    induction fuel with
    | zero => intro x y p hp; simp [placeLoop] at hp
    | succ n ih =>
      intro x y p hp
      rw [placeLoop] at hp
      by_cases hwrap : x + L.paste_w > L.a4_w
      · rw [if_pos hwrap] at hp
        by_cases hov : y + L.paste_h + L.spacing + L.paste_h > L.a4_h
        · rw [if_pos hov] at hp; simp at hp
        · rw [if_neg hov] at hp
          rcases List.mem_cons.mp hp with hph | hpt
          · subst hph; exact ⟨hw, by omega⟩
          · exact ih _ _ p hpt
      · rw [if_neg hwrap] at hp
        by_cases hov : y + L.paste_h > L.a4_h
        · rw [if_pos hov] at hp; simp at hp
        · rw [if_neg hov] at hp
          rcases List.mem_cons.mp hp with hph | hpt
          · subst hph; exact ⟨by omega, by omega⟩
          · exact ih _ _ p hpt
  exact main copies.toNat L.margin_x L.margin_y

/-- Witness for C2 (amended) on the default layout with six copies. -/
theorem placements_inBounds_witness :
    defaultLayout.margin_x + defaultLayout.paste_w ≤ defaultLayout.a4_w ∧
      ∀ p ∈ placements defaultLayout 6,
        p.1 + defaultLayout.paste_w ≤ defaultLayout.a4_w ∧
          p.2 + defaultLayout.paste_h ≤ defaultLayout.a4_h :=
  ⟨by decide, placements_inBounds defaultLayout 6 (by decide)⟩

/-- C3 counterexample: `cLayoutWide` is width-oversized
(`paste_w = 200 > a4_w - margin_x = 90`), yet one copy is placed (the
claim predicts zero): the wrap branch advances the row and then pastes. -/
theorem placements_oversized_cex :
    cLayoutWide.a4_w - cLayoutWide.margin_x < cLayoutWide.paste_w ∧
      placedCount cLayoutWide 1 = 1 := by
  constructor <;> decide

/-- C3 amended: a *height*-oversized tile (`margin_y + paste_h > a4_h`)
yields zero placements for every `copies`: whether or not the wrap branch
fires, the overflow check of line 150 stops the loop on its first
iteration.  Width-oversizing alone does not imply zero placements. -/
theorem placements_nil_of_tall (L : Layout) (copies : ℤ)
    (hh : L.a4_h < L.margin_y + L.paste_h) :
    placements L copies = [] ∧ placedCount L copies = 0 := by
  have hnil : placements L copies = [] := by
    unfold placements
    rcases n : copies.toNat with _ | m
    · rfl
    · rw [placeLoop]
      by_cases hwrap : L.margin_x + L.paste_w > L.a4_w
      · rw [if_pos hwrap, if_pos (by omega)]
      · rw [if_neg hwrap, if_pos (by omega)]
  exact ⟨hnil, by simp [placedCount, hnil]⟩

/-- Witness for C3 (amended) on the short page `cLayoutTall`. -/
theorem placements_nil_of_tall_witness :
    cLayoutTall.a4_h < cLayoutTall.margin_y + cLayoutTall.paste_h ∧
      (placements cLayoutTall 6 = [] ∧ placedCount cLayoutTall 6 = 0) :=
  ⟨by decide, placements_nil_of_tall cLayoutTall 6 (by decide)⟩

/-- Separation invariant between an earlier and a later placement: either
both lie in the same loop row (same `y`) with the later one at least one
full horizontal step to the right, or the later one at least one full
vertical step lower. -/
def sepRel (L : Layout) (p q : ℕ × ℕ) : Prop :=
  (p.2 = q.2 ∧ p.1 + (L.paste_w + L.horizontal_gap) ≤ q.1) ∨
    p.2 + (L.paste_h + L.spacing) ≤ q.2

/-- Every placement emitted from loop state `(x, y)` is either in the row
currently being filled (same `y`, at or right of the cursor) or at least
one full row step below it. -/
lemma placeLoop_mem_sep (L : Layout) :
    ∀ fuel x y, ∀ q ∈ placeLoop L fuel x y,
      (q.2 = y ∧ x ≤ q.1) ∨ y + (L.paste_h + L.spacing) ≤ q.2 := by
  intro fuel
  induction fuel with
  | zero => intro x y q hq; simp [placeLoop] at hq
  | succ n ih =>
    intro x y q hq
    rw [placeLoop] at hq
    by_cases hwrap : x + L.paste_w > L.a4_w
    · rw [if_pos hwrap] at hq
      by_cases hov : y + L.paste_h + L.spacing + L.paste_h > L.a4_h
      · rw [if_pos hov] at hq; simp at hq
      · rw [if_neg hov] at hq
        rcases List.mem_cons.mp hq with hqh | hqt
        · subst hqh; right; omega
        · rcases ih _ _ q hqt with ⟨hqy, _⟩ | hqv
          · right; omega
          · right; omega
    · rw [if_neg hwrap] at hq
      by_cases hov : y + L.paste_h > L.a4_h
      · rw [if_pos hov] at hq; simp at hq
      · rw [if_neg hov] at hq
        rcases List.mem_cons.mp hq with hqh | hqt
        · subst hqh; left; exact ⟨rfl, le_refl x⟩
        · rcases ih _ _ q hqt with ⟨hqy, hqx⟩ | hqv
          · left; exact ⟨hqy, by omega⟩
          · right; exact hqv

/-- Any two placements, in emission order, satisfy the separation
invariant `sepRel`. -/
lemma placeLoop_pairwise_sep (L : Layout) :
    ∀ fuel x y, List.Pairwise (sepRel L) (placeLoop L fuel x y) := by
  intro fuel
  induction fuel with
  | zero => intro x y; simp [placeLoop]
  | succ n ih =>
    intro x y
    rw [placeLoop]
    by_cases hwrap : x + L.paste_w > L.a4_w
    · rw [if_pos hwrap]
      by_cases hov : y + L.paste_h + L.spacing + L.paste_h > L.a4_h
      · rw [if_pos hov]; exact List.Pairwise.nil
      · rw [if_neg hov]
        refine List.pairwise_cons.mpr ⟨?_, ih _ _⟩
        intro q hq
        rcases placeLoop_mem_sep L n _ _ q hq with ⟨hqy, hqx⟩ | hqv
        · exact Or.inl ⟨hqy.symm, by omega⟩
        · exact Or.inr (by omega)
    · rw [if_neg hwrap]
      by_cases hov : y + L.paste_h > L.a4_h
      · rw [if_pos hov]; exact List.Pairwise.nil
      · rw [if_neg hov]
        refine List.pairwise_cons.mpr ⟨?_, ih _ _⟩
        intro q hq
        rcases placeLoop_mem_sep L n _ _ q hq with ⟨hqy, hqx⟩ | hqv
        · exact Or.inl ⟨hqy.symm, by omega⟩
        · exact Or.inr (by omega)

/-- C4: for every input, any two distinct placements are separated by at
least a full step — horizontally by `paste_w + horizontal_gap` or
vertically by `paste_h + spacing` — and consequently no two placed tiles'
footprint rectangles overlap. -/
theorem placements_no_overlap (L : Layout) (copies : ℤ) :
    List.Pairwise (fun p q =>
      ((p.1 + (L.paste_w + L.horizontal_gap) ≤ q.1 ∨
          q.1 + (L.paste_w + L.horizontal_gap) ≤ p.1) ∨
        (p.2 + (L.paste_h + L.spacing) ≤ q.2 ∨
          q.2 + (L.paste_h + L.spacing) ≤ p.2)) ∧
        ¬ tilesOverlap L p q) (placements L copies) := by
  refine (placeLoop_pairwise_sep L copies.toNat L.margin_x L.margin_y).imp ?_
  intro p q hsep
  rcases hsep with ⟨hy, hx⟩ | hv
  · exact ⟨Or.inl (Or.inl hx), by unfold tilesOverlap; omega⟩
  · exact ⟨Or.inr (Or.inl hv), by unfold tilesOverlap; omega⟩

/-- C6 counterexample: with a zero-width footprint and zero horizontal
gap (`cLayoutZeroStep`) the cursor never advances, two copies are placed
at the identical coordinates `(10, 15)`, and the sequence of placements is
not strictly increasing in row-major order. -/
theorem placements_rowMajor_cex :
    placements cLayoutZeroStep 2 = [(10, 15), (10, 15)] ∧
      ¬ List.Chain' rowMajorLt (placements cLayoutZeroStep 2) := by
  have heq : placements cLayoutZeroStep 2 = [(10, 15), (10, 15)] := by rfl
  refine ⟨heq, ?_⟩
  rw [heq]
  intro h
  have hlt := (List.chain'_cons.mp h).1
  simp [rowMajorLt] at hlt

/-- C6 amended: provided both cursor steps are positive
(`paste_w + horizontal_gap ≥ 1` and `paste_h + spacing ≥ 1`), each
placement strictly precedes the next in row-major order: strictly greater
y, or equal y and strictly greater x. -/
theorem placements_rowMajor_mono (L : Layout) (copies : ℤ)
    (hs : 0 < L.paste_w + L.horizontal_gap)
    (ht : 0 < L.paste_h + L.spacing) :
    List.Chain' rowMajorLt (placements L copies) := by
  have hp : List.Pairwise rowMajorLt (placements L copies) := by
    refine (placeLoop_pairwise_sep L copies.toNat L.margin_x L.margin_y).imp ?_
    intro p q hsep
    rcases hsep with ⟨hy, hx⟩ | hv
    · exact Or.inr ⟨hy, by omega⟩
    · exact Or.inl (by omega)
  exact hp.chain'

/-- Witness for C6 (amended) on the default layout with six copies. -/
theorem placements_rowMajor_mono_witness :
    0 < defaultLayout.paste_w + defaultLayout.horizontal_gap ∧
      0 < defaultLayout.paste_h + defaultLayout.spacing ∧
      List.Chain' rowMajorLt (placements defaultLayout 6) :=
  ⟨by decide, by decide, placements_rowMajor_mono defaultLayout 6 (by decide) (by decide)⟩

/-- Degenerate horizontal step: when `paste_w + horizontal_gap = 0` (and
the tile fits) the cursor never moves, so every iteration places a copy at
`(margin_x, y)`. -/
lemma placeLoop_length_fixed (L : Layout)
    (hw : L.margin_x + L.paste_w ≤ L.a4_w)
    (hs0 : L.paste_w + L.horizontal_gap = 0) :
    ∀ fuel y, y + L.paste_h ≤ L.a4_h →
      (placeLoop L fuel L.margin_x y).length = fuel := by
  intro fuel
  induction fuel with
  | zero => intro y hy; simp [placeLoop]
  | succ n ih =>
    intro y hy
    rw [placeLoop, if_neg (by omega), if_neg (by omega), List.length_cons]
    have hx : L.margin_x + L.paste_w + L.horizontal_gap = L.margin_x := by omega
    rw [hx, ih y hy]

/-- Degenerate vertical step: when `paste_h + spacing = 0` (and the tile
fits vertically) a wrap never moves the cursor down, the overflow check
never fires, and every iteration places a copy. -/
lemma placeLoop_length_flat (L : Layout)
    (hh : L.margin_y + L.paste_h ≤ L.a4_h)
    (ht0 : L.paste_h + L.spacing = 0) :
    ∀ fuel x, (placeLoop L fuel x L.margin_y).length = fuel := by
  intro fuel
  induction fuel with
  | zero => intro x; simp [placeLoop]
  | succ n ih =>
    intro x
    rw [placeLoop]
    by_cases hwrap : x + L.paste_w > L.a4_w
    · rw [if_pos hwrap, if_neg (by omega)]
      have hy : L.margin_y + L.paste_h + L.spacing = L.margin_y := by omega
      rw [hy, List.length_cons, ih _]
    · rw [if_neg hwrap, if_neg (by omega), List.length_cons, ih _]

/-- Closed form for the loop's placed count with both steps positive,
from an arbitrary in-range loop state: column `k ≤ colMax + 1` (the value
`colMax + 1` is the cursor state just past a full row, before a wrap) and
row `r ≤ rowMax`.  The count is the remaining capacity, capped by the
remaining fuel. -/
lemma placeLoop_length_main (L : Layout)
    (hw : L.margin_x + L.paste_w ≤ L.a4_w)
    (hh : L.margin_y + L.paste_h ≤ L.a4_h)
    (hs : 0 < L.paste_w + L.horizontal_gap)
    (ht : 0 < L.paste_h + L.spacing) :
    ∀ fuel k r, k ≤ colMax L + 1 → r ≤ rowMax L →
      (placeLoop L fuel
          (L.margin_x + k * (L.paste_w + L.horizontal_gap))
          (L.margin_y + r * (L.paste_h + L.spacing))).length
        = min fuel ((colMax L + 1 - k) + (rowMax L - r) * (colMax L + 1)) := by
  intro fuel
  induction fuel with
  | zero => intro k r hk hr; simp [placeLoop]
  | succ n ih =>
    intro k r hk hr
    have hrt : r * (L.paste_h + L.spacing) ≤ L.a4_h - L.margin_y - L.paste_h := by
      have h1 := hr
      unfold rowMax at h1
      exact (Nat.le_div_iff_mul_le ht).mp h1
    by_cases hcol : k ≤ colMax L
    · have hks : k * (L.paste_w + L.horizontal_gap) ≤ L.a4_w - L.margin_x - L.paste_w := by
        have h1 := hcol
        unfold colMax at h1
        exact (Nat.le_div_iff_mul_le hs).mp h1
      rw [placeLoop, if_neg (by omega), if_neg (by omega), List.length_cons]
      have hx2 : L.margin_x + k * (L.paste_w + L.horizontal_gap) + L.paste_w + L.horizontal_gap
          = L.margin_x + (k + 1) * (L.paste_w + L.horizontal_gap) := by ring
      rw [hx2, ih (k + 1) r (by omega) hr]
      omega
    · have hkeq : k = colMax L + 1 := by omega
      subst hkeq
      have hklt : L.a4_w - L.margin_x - L.paste_w
          < (colMax L + 1) * (L.paste_w + L.horizontal_gap) := by
        have h1 : (L.a4_w - L.margin_x - L.paste_w) / (L.paste_w + L.horizontal_gap)
            < colMax L + 1 := by
          unfold colMax; omega
        exact (Nat.div_lt_iff_lt_mul hs).mp h1
      rw [placeLoop, if_pos (by omega)]
      by_cases hrow : r + 1 ≤ rowMax L
      · have hrt1 : (r + 1) * (L.paste_h + L.spacing) ≤ L.a4_h - L.margin_y - L.paste_h := by
          have h1 := hrow
          unfold rowMax at h1
          exact (Nat.le_div_iff_mul_le ht).mp h1
        have hsplit1 : (r + 1) * (L.paste_h + L.spacing)
            = r * (L.paste_h + L.spacing) + (L.paste_h + L.spacing) := by ring
        rw [if_neg (by omega)]
        have hx1 : L.margin_x + L.paste_w + L.horizontal_gap
            = L.margin_x + 1 * (L.paste_w + L.horizontal_gap) := by ring
        have hy1 : L.margin_y + r * (L.paste_h + L.spacing) + L.paste_h + L.spacing
            = L.margin_y + (r + 1) * (L.paste_h + L.spacing) := by ring
        rw [List.length_cons, hx1, hy1, ih 1 (r + 1) (by omega) hrow]
        have hsplit2 : (rowMax L - r) * (colMax L + 1)
            = (rowMax L - (r + 1)) * (colMax L + 1) + (colMax L + 1) := by
          have h2 : rowMax L - r = (rowMax L - (r + 1)) + 1 := by omega
          rw [h2]; ring
        omega
      · have hreq : r = rowMax L := by omega
        subst hreq
        have hrlt : L.a4_h - L.margin_y - L.paste_h
            < (rowMax L + 1) * (L.paste_h + L.spacing) := by
          have h1 : (L.a4_h - L.margin_y - L.paste_h) / (L.paste_h + L.spacing)
              < rowMax L + 1 := by
            unfold rowMax; omega
          exact (Nat.div_lt_iff_lt_mul ht).mp h1
        have hsplit3 : (rowMax L + 1) * (L.paste_h + L.spacing)
            = rowMax L * (L.paste_h + L.spacing) + (L.paste_h + L.spacing) := by ring
        rw [if_pos (by omega)]
        simp [Nat.sub_self]

/-- Closed form for the placed count from the initial cursor
`(margin_x, margin_y)`, all parameter regimes: with a degenerate step the
loop places one copy per iteration; otherwise it places
`min fuel ((colMax + 1) * (rowMax + 1))` copies. -/
lemma placedCount_closed (L : Layout)
    (hw : L.margin_x + L.paste_w ≤ L.a4_w)
    (hh : L.margin_y + L.paste_h ≤ L.a4_h) :
    ∀ c : ℕ, (placeLoop L c L.margin_x L.margin_y).length
      = if L.paste_w + L.horizontal_gap = 0 ∨ L.paste_h + L.spacing = 0 then c
        else min c ((colMax L + 1) * (rowMax L + 1)) := by
  intro c
  by_cases hst : L.paste_w + L.horizontal_gap = 0 ∨ L.paste_h + L.spacing = 0
  · rw [if_pos hst]
    rcases hst with hs0 | ht0
    · exact placeLoop_length_fixed L hw hs0 c L.margin_y hh
    · exact placeLoop_length_flat L hh ht0 c L.margin_x
  · rw [if_neg hst]
    push_neg at hst
    have hs : 0 < L.paste_w + L.horizontal_gap := Nat.pos_of_ne_zero hst.1
    have ht : 0 < L.paste_h + L.spacing := Nat.pos_of_ne_zero hst.2
    have hmain := placeLoop_length_main L hw hh hs ht c 0 0 (by omega) (by omega)
    simp only [Nat.zero_mul, Nat.add_zero, Nat.sub_zero] at hmain
    rw [hmain]
    congr 1
    ring

lemma enat_coe_min (a b : ℕ) : ((min a b : ℕ) : ℕ∞) = min (a : ℕ∞) (b : ℕ∞) := by
  rcases le_total a b with h | h
  · rw [min_eq_left h, min_eq_left (by exact_mod_cast h)]
  · rw [min_eq_right h, min_eq_right (by exact_mod_cast h)]

/-- C1: when at least one tile fits
(`margin_x + paste_w ≤ a4_w` and `margin_y + paste_h ≤ a4_h`) and
`requestedCopies ≥ 0`, the placed count is `min(requestedCopies, capacity)`
— and `capacity` really is the maximum placeable count: it equals the
supremum of the placed counts over all requested copy counts. -/
theorem placedCount_eq_min_capacity (L : Layout) (copies : ℤ) (hc : 0 ≤ copies)
    (hw : L.margin_x + L.paste_w ≤ L.a4_w)
    (hh : L.margin_y + L.paste_h ≤ L.a4_h) :
    (placedCount L copies : ℕ∞) = min ((copies.toNat : ℕ∞)) (capacity L) ∧
      capacity L = ⨆ m : ℕ, ((placedCount L (m : ℤ) : ℕ∞)) := by
  have hclosed := placedCount_closed L hw hh
  by_cases hst : L.paste_w + L.horizontal_gap = 0 ∨ L.paste_h + L.spacing = 0
  · have hcap : capacity L = ⊤ := by rw [capacity, if_pos hst]
    have hpm : ∀ m : ℕ, placedCount L (m : ℤ) = m := by
      intro m
      simp only [placedCount, placements, Int.toNat_natCast]
      rw [hclosed m, if_pos hst]
    constructor
    · have hpc : placedCount L copies = copies.toNat := by
        simp only [placedCount, placements]
        rw [hclosed copies.toNat, if_pos hst]
      rw [hcap, min_eq_left le_top, hpc]
    · rw [hcap, eq_comm, iSup_eq_top]
      intro b hb
      lift b to ℕ using hb.ne
      refine ⟨b + 1, ?_⟩
      rw [hpm (b + 1)]
      exact_mod_cast Nat.lt_succ_self b
  · push_neg at hst
    have hcap : capacity L = (((colMax L + 1) * (rowMax L + 1) : ℕ) : ℕ∞) := by
      rw [capacity, if_neg (not_or.mpr ⟨hst.1, hst.2⟩)]
    have hpm : ∀ m : ℕ, placedCount L (m : ℤ) = min m ((colMax L + 1) * (rowMax L + 1)) := by
      intro m
      simp only [placedCount, placements, Int.toNat_natCast]
      rw [hclosed m, if_neg (not_or.mpr ⟨hst.1, hst.2⟩)]
    constructor
    · have hpc : placedCount L copies
          = min copies.toNat ((colMax L + 1) * (rowMax L + 1)) := by
        simp only [placedCount, placements]
        rw [hclosed copies.toNat, if_neg (not_or.mpr ⟨hst.1, hst.2⟩)]
      rw [hcap, hpc]
      exact enat_coe_min _ _
    · rw [hcap]
      apply le_antisymm
      · have h1 : placedCount L (((colMax L + 1) * (rowMax L + 1) : ℕ) : ℤ)
            = (colMax L + 1) * (rowMax L + 1) := by
          rw [hpm _, min_self]
        have h2 : ((((colMax L + 1) * (rowMax L + 1) : ℕ)) : ℕ∞)
            = ((placedCount L (((colMax L + 1) * (rowMax L + 1) : ℕ) : ℤ) : ℕ∞)) := by
          rw [h1]
        rw [h2]
        exact le_iSup (fun m : ℕ => ((placedCount L (m : ℤ) : ℕ∞)))
          ((colMax L + 1) * (rowMax L + 1))
      · apply iSup_le
        intro m
        rw [hpm m]
        exact_mod_cast min_le_right m ((colMax L + 1) * (rowMax L + 1))

/-- Witness for C1 on the default layout with six copies (capacity is
6 × 7 = 42 there, so the placed count is 6). -/
theorem placedCount_eq_min_capacity_witness :
    ((0 : ℤ) ≤ 6 ∧ defaultLayout.margin_x + defaultLayout.paste_w ≤ defaultLayout.a4_w ∧
        defaultLayout.margin_y + defaultLayout.paste_h ≤ defaultLayout.a4_h) ∧
      ((placedCount defaultLayout 6 : ℕ∞)
          = min (((6 : ℤ).toNat : ℕ∞)) (capacity defaultLayout) ∧
        capacity defaultLayout = ⨆ m : ℕ, ((placedCount defaultLayout (m : ℤ) : ℕ∞))) :=
  ⟨⟨by decide, by decide, by decide⟩,
    placedCount_eq_min_capacity defaultLayout 6 (by decide) (by decide) (by decide)⟩

/-- Color modes distinguished by `process`: lines 79 and 123 branch on
`img.mode in ("RGBA", "LA")`; any other mode goes through
`img.convert("RGB")`. -/
inductive ImageMode where
  | RGB
  | RGBA
  | LA
  | Lum
  | Pal
  | CMYK
deriving DecidableEq

/-- A pixel as an (r, g, b, alpha) quadruple of 8-bit channel values; for
luminance modes the three color components coincide, for modes without an
alpha channel the stored alpha is unused. -/
def Pixel : Type := ℕ × ℕ × ℕ × ℕ

def alphaOf (p : Pixel) : ℕ := p.2.2.2

/-- Drop the alpha channel, keeping the color: the per-pixel effect of
`img.convert("RGB")` on an alpha-free image. -/
def opaquify (p : Pixel) : Pixel := (p.1, p.2.1, p.2.2.1, 255)

/-- Modelled from the spec: a decoded PIL image, reduced to the fields the
pipeline inspects — the mode string, the size, and the pixel buffer
(PIL's `Image` object itself is library code, absent from src/). -/
structure PILImage where
  mode : ImageMode
  width : ℕ
  height : ℕ
  pix : ℕ → ℕ → Pixel

/-- Modelled from the spec: the per-channel effect of
`background.paste(img, mask=alpha)` over an opaque white background —
blend the channel toward white by the mask weight, so a fully transparent
pixel becomes white and a fully opaque pixel keeps its color (PIL's paste
compositing is library code, absent from src/). -/
def blendOverWhite (c a : ℕ) : ℕ := (c * a + 255 * (255 - a)) / 255

lemma blendOverWhite_zero (c : ℕ) : blendOverWhite c 0 = 255 := by
  unfold blendOverWhite
  norm_num

lemma blendOverWhite_full (c : ℕ) : blendOverWhite c 255 = c := by
  unfold blendOverWhite
  simp [Nat.sub_self]

/-- The transparency flattening of lines 79-85 (and identically lines
123-129): if the mode is RGBA or LA, paste the image over an opaque white
`Image.new("RGB", size, (255, 255, 255))` using its own alpha channel as
the mask; otherwise `convert("RGB")`. -/
def flattenWhite (img : PILImage) : PILImage :=
  if img.mode = ImageMode.RGBA ∨ img.mode = ImageMode.LA then
    { mode := ImageMode.RGB
      width := img.width
      height := img.height
      pix := fun i j =>
        (blendOverWhite (img.pix i j).1 (alphaOf (img.pix i j)),
          blendOverWhite (img.pix i j).2.1 (alphaOf (img.pix i j)),
          blendOverWhite (img.pix i j).2.2.1 (alphaOf (img.pix i j)),
          255) }
  else
    { mode := ImageMode.RGB
      width := img.width
      height := img.height
      pix := fun i j => opaquify (img.pix i j) }

/-- Resampling filters; line 132 passes `Image.LANCZOS`. -/
inductive ResampleFilter where
  | nearest
  | bilinear
  | lanczos
deriving DecidableEq

/-- Modelled from the spec: PIL's `Image.resize` returns an image of
exactly the requested dimensions (the resampled pixel content is library
code, absent from src/, and abstracted here). -/
def resize (img : PILImage) (w h : ℕ) (_filter : ResampleFilter) : PILImage :=
  { mode := img.mode, width := w, height := h, pix := img.pix }

/-- Modelled from the spec: `ImageOps.expand(img, border=b, fill=c)` adds
a `b`-pixel frame of the fill color on all four sides. -/
def expand (img : PILImage) (b : ℕ) (fill : Pixel) : PILImage :=
  { mode := img.mode
    width := img.width + 2 * b
    height := img.height + 2 * b
    pix := fun i j =>
      if b ≤ i ∧ i < b + img.width ∧ b ≤ j ∧ j < b + img.height then
        img.pix (i - b) (j - b)
      else fill }

def blackPixel : Pixel := (0, 0, 0, 255)

/-- The resize + border step of lines 131-133: scale to the passport
content size with the Lanczos filter, then add a black border. -/
def prepareTile (L : Layout) (img : PILImage) : PILImage :=
  expand (resize img L.passport_width L.passport_height ResampleFilter.lanczos)
    L.border blackPixel

/-- C7: the flatten step always yields a 3-channel (RGB-mode) image with
every pixel fully opaque; when the source has an alpha or luminance-alpha
channel it is composited over white through its own alpha (a fully
transparent pixel becomes white, a fully opaque pixel keeps its color),
and otherwise it is converted directly to opaque RGB. -/
theorem flattenWhite_spec (img : PILImage) (i j : ℕ) :
    (flattenWhite img).mode = ImageMode.RGB ∧
      alphaOf ((flattenWhite img).pix i j) = 255 ∧
      ((img.mode = ImageMode.RGBA ∨ img.mode = ImageMode.LA) →
        (alphaOf (img.pix i j) = 0 →
          (flattenWhite img).pix i j = (255, 255, 255, 255)) ∧
        (alphaOf (img.pix i j) = 255 →
          (flattenWhite img).pix i j = opaquify (img.pix i j))) ∧
      (¬(img.mode = ImageMode.RGBA ∨ img.mode = ImageMode.LA) →
        (flattenWhite img).pix i j = opaquify (img.pix i j)) := by
  by_cases h : img.mode = ImageMode.RGBA ∨ img.mode = ImageMode.LA
  · refine ⟨by simp [flattenWhite, h], by simp [flattenWhite, h, alphaOf], ?_, fun hn => absurd h hn⟩
    intro _
    constructor
    · intro ha
      simp [flattenWhite, h, ha, blendOverWhite_zero]
    · intro ha
      simp [flattenWhite, h, ha, blendOverWhite_full, opaquify]
  · exact ⟨by simp [flattenWhite, h], by simp [flattenWhite, h, alphaOf, opaquify],
      fun hy => absurd hy h, fun _ => by simp [flattenWhite, h]⟩

/-- A one-pixel RGBA image whose pixel is fully transparent. -/
def cImgTransparent : PILImage :=
  { mode := ImageMode.RGBA, width := 1, height := 1, pix := fun _ _ => (10, 20, 30, 0) }

/-- A one-pixel RGBA image whose pixel is fully opaque. -/
def cImgOpaque : PILImage :=
  { mode := ImageMode.RGBA, width := 1, height := 1, pix := fun _ _ => (10, 20, 30, 255) }

/-- Witness for C7: the transparent pixel flattens to white, the opaque
pixel keeps its color, and the result is RGB. -/
theorem flattenWhite_spec_witness :
    (flattenWhite cImgTransparent).pix 0 0 = (255, 255, 255, 255) ∧
      (flattenWhite cImgOpaque).pix 0 0 = opaquify (cImgOpaque.pix 0 0) ∧
      (flattenWhite cImgTransparent).mode = ImageMode.RGB :=
  ⟨((flattenWhite_spec cImgTransparent 0 0).2.2.1 (Or.inl rfl)).1 rfl,
    ((flattenWhite_spec cImgOpaque 0 0).2.2.1 (Or.inl rfl)).2 rfl,
    (flattenWhite_spec cImgTransparent 0 0).1⟩

/-- C8: tile preparation always returns an image of exactly
`(passport_width + 2·border) × (passport_height + 2·border)` pixels —
388 × 476 with the default parameters. -/
theorem prepareTile_dims (L : Layout) (img : PILImage) :
    (prepareTile L img).width = L.passport_width + 2 * L.border ∧
      (prepareTile L img).height = L.passport_height + 2 * L.border ∧
      (prepareTile defaultLayout img).width = 388 ∧
      (prepareTile defaultLayout img).height = 476 :=
  ⟨rfl, rfl, rfl, rfl⟩

/-- The background-removal collaborator's reply (lines 55-73): an HTTP
status, and the parsed `errors` field of its JSON body — `none` when the
body fails to parse as JSON (the `except` branch of line 70), otherwise
the list of error entries, each carrying an optional `code` string
(line 68 reads `errors[0].get("code", "unknown_error")`; an absent or
empty `errors` list is `some []`). -/
structure BgResponse where
  status : ℕ
  errors : Option (List (Option String))

/-- The storage collaborator's reply (lines 93-95): the optional
`secure_url` (line 99 fails with a 500 when it is missing) and the
`public_id` used for the enhancement transformation. -/
structure UploadResult where
  secure_url : Option String
  public_id : String

/-- The possible HTTP results of the `process` handler: the 400 of line
35, the 410 of line 69, the 500s of lines 73 and 101, and the successful
PDF attachment of lines 167-172 carrying the composed sheet. -/
inductive HttpResponse where
  | noImage
  | removalError (code : String)
  | removalFailed
  | uploadFailed
  | sheet (tile : PILImage) (positions : List (ℕ × ℕ)) (placed : ℕ)

/-- The HTTP status attached to each result (200 for `send_file`). -/
def HttpResponse.status : HttpResponse → ℕ
  | HttpResponse.noImage => 400
  | HttpResponse.removalError _ => 410
  | HttpResponse.removalFailed => 500
  | HttpResponse.uploadFailed => 500
  | HttpResponse.sheet _ _ _ => 200

/-- Whether the result is the downloadable PDF document. -/
def HttpResponse.isDocument : HttpResponse → Bool
  | HttpResponse.sheet _ _ _ => true
  | _ => false

/-- The `process` handler of lines 29-172, with the external collaborators
abstracted as inputs: `hasImage` is the multipart-file presence check of
line 33, `bg` the removal collaborator's reply, `upload` the storage
collaborator's reply, and `enhancedImage` the decoded image downloaded
from the enhancement URL (lines 118-119).  On a non-200 removal status the
handler returns 410 with the first structured error code when one parses
(lines 63-69) and 500 otherwise (line 73); on a missing `secure_url` it
returns 500 (lines 99-101); otherwise it flattens, resizes and borders the
enhanced image and composes the sheet with the hard-coded layout. -/
def process (hasImage : Bool) (copies : ℤ) (bg : BgResponse)
    (upload : UploadResult) (enhancedImage : PILImage) : HttpResponse :=
  if !hasImage then HttpResponse.noImage
  else if bg.status ≠ 200 then
    match bg.errors with
    | some (e :: _) => HttpResponse.removalError (e.getD ("unknown_error"))
    | _ => HttpResponse.removalFailed
  else
    match upload.secure_url with
    | none => HttpResponse.uploadFailed
    | some _ =>
      HttpResponse.sheet (prepareTile defaultLayout (flattenWhite enhancedImage))
        (placements defaultLayout copies) (placedCount defaultLayout copies)

/-- C9: when the background-removal collaborator replies with a non-200
status, the pipeline short-circuits: the result does not depend on the
storage or enhancement collaborators, no document is produced, and the
response is 410 with the provider's first structured error code when the
body contains one, else the generic 500. -/
theorem removal_failure_short_circuits (copies : ℤ) (bg : BgResponse)
    (hfail : bg.status ≠ 200) :
    (∀ u e u' e', process true copies bg u e = process true copies bg u' e') ∧
      (∀ u e, (process true copies bg u e).isDocument = false) ∧
      (∀ u e c rest, bg.errors = some (c :: rest) →
        process true copies bg u e
            = HttpResponse.removalError (c.getD ("unknown_error")) ∧
          (process true copies bg u e).status = 410) ∧
      (∀ u e, bg.errors = none ∨ bg.errors = some [] →
        process true copies bg u e = HttpResponse.removalFailed ∧
          (process true copies bg u e).status = 500) := by
  have hstep : ∀ u e, process true copies bg u e =
      (match bg.errors with
        | some (c :: _) => HttpResponse.removalError (c.getD ("unknown_error"))
        | _ => HttpResponse.removalFailed) := by
    intro u e
    simp [process, hfail]
  refine ⟨?_, ?_, ?_, ?_⟩
  · intro u e u' e'
    rw [hstep u e, hstep u' e']
  · intro u e
    rw [hstep u e]
    rcases herr : bg.errors with _ | l
    · rfl
    · rcases l with _ | ⟨c, cs⟩ <;> rfl
  · intro u e c rest herr
    rw [hstep u e, herr]
    exact ⟨rfl, rfl⟩
  · intro u e herr
    rcases herr with h | h <;> rw [hstep u e, h] <;> exact ⟨rfl, rfl⟩

/-- A removal reply with a structured error body, as remove.bg sends for
a payment failure. -/
def cBgFail : BgResponse :=
  { status := 402, errors := some [some ("insufficient_credits")] }

/-- A storage reply with a usable secure URL. -/
def cUpload : UploadResult :=
  { secure_url := some ("stored-asset-url"), public_id := ("stored-asset") }

/-- Witness for C9: the concrete failing reply yields the 410 response
carrying the provider's first error code. -/
theorem removal_failure_short_circuits_witness :
    cBgFail.status ≠ 200 ∧
      process true 6 cBgFail cUpload cImgOpaque
          = HttpResponse.removalError ("insufficient_credits") ∧
        (process true 6 cBgFail cUpload cImgOpaque).status = 410 :=
  ⟨by decide,
    ((removal_failure_short_circuits 6 cBgFail (by decide)).2.2.1 cUpload cImgOpaque
        (some ("insufficient_credits")) [] rfl).1,
    ((removal_failure_short_circuits 6 cBgFail (by decide)).2.2.1 cUpload cImgOpaque
        (some ("insufficient_credits")) [] rfl).2⟩
